import Mathlib

/-
Verification of the versioned object model of `nova/objects/base.py`.

The development shallowly embeds the data model and the operations of the
module: version tuples, the entity registry and its resolution algorithm,
entity instances with per-field change tracking, wire primitives, the
recursive backport (compatibility) engine, the remotable-call guards and
the serializer retry logic.

Modelling conventions, used throughout:
 - Version strings ("MAJOR.MINOR" or "MAJOR.MINOR.PATCH") are embedded as
   the tuples that `utils.convert_version_to_tuple` produces from them
   (`List Nat`, compared lexicographically, exactly as Python compares
   tuples).  The mapping from canonical version strings to tuples is
   injective, so string equality is tuple equality.
 - Python exceptions become an explicit error type (`ObjErr`) and fallible
   functions return `Except ObjErr _`.
 - A Python object instance stores its set fields as object attributes,
   which carry no intrinsic order; we represent the set fields of an
   instance as an association list `VData` (kept in declaration order by
   the producing code paths).  Where the source iterates the declared
   field table of the class and filters to the fields that are set
   (`obj_to_primitive`, `obj_make_compatible`, `_obj_from_primitive`),
   the embedding iterates the stored data, filtered through the declared
   field table: both visit exactly the declared-and-present fields.
 - The field descriptor classes live in `nova/objects/fields.py`, which is
   not part of the sources given; their behaviour (scalar fields
   (de)serialize as themselves, Object fields as the wire primitive of the
   contained entity, ListOfObjects fields as a list of wire primitives,
   null is preserved) is modelled from the spec, see `fieldFromPrim`,
   `valToPrim` and `FieldKind`.
-/

deriving instance DecidableEq for Except

namespace Nova

/-- A version tuple, as produced by `utils.convert_version_to_tuple`:
"1.2" becomes `[1, 2]`, "1.2.3" becomes `[1, 2, 3]`. -/
abbrev Ver := List Nat

/-- Lexicographic strict order on version tuples: Python tuple `<`. -/
def vlt : Ver → Ver → Bool
  | [], [] => false
  | [], _ :: _ => true
  | _ :: _, [] => false
  | a :: as, b :: bs =>
    if a < b then true
    else if b < a then false
    else vlt as bs

/-- Modelled from the spec: `oslo_utils.versionutils.is_compatible`
(an external collaborator of `obj_class_from_name`): the requested
version is satisfied by the current one when the MAJOR components agree
and the current version is not older than the requested one. -/
def is_compatible (requested current : Ver) : Bool :=
  decide (requested.head? = current.head?) && !(vlt current requested)

/-- The error taxonomy of the module (`nova.exception` classes raised by
the code under study, plus the generic Python errors the code can hit). -/
inductive ObjErr where
  | unsupportedObjectError (objtype : String)
  | incompatibleObjectVersion (objname : String) (objver : Ver) (supported : Ver)
  | orphanedObjectError (method : String) (objtype : String)
  | objectActionError (action : String) (reason : String)
  | keyError (key : String)
  | indexError
  | valueError
deriving DecidableEq

/-- The semantic kind of a field descriptor, as far as the code under
study distinguishes them: `obj_make_compatible` and the hydration path
treat `ObjectField` and `ListOfObjectsField` specially and everything
else uniformly. -/
inductive FieldKind where
  | scalar
  | objectField
  | listOfObjectsField
deriving DecidableEq

/-- True for the field kinds `obj_make_compatible` recurses into. -/
def isComposed : FieldKind → Bool
  | .objectField => true
  | .listOfObjectsField => true
  | .scalar => false

/-- Association-list lookup keyed by strings (Python `dict` access). -/
def alistFind {α : Type} : List (String × α) → String → Option α
  | [], _ => none
  | (k, v) :: rest, n => if k = n then some v else alistFind rest n

/-- A registered class: its wire name, its `VERSION`, its declared field
table and its `obj_relationships` table. -/
structure ObjClass where
  name : String
  version : Ver
  fields : List (String × FieldKind)
  relationships : List (String × List (Ver × Ver))
deriving DecidableEq

/-- The registry state: for each wire name, the list of registered
classes, which `NovaObjectRegistry` keeps sorted newest-first. -/
abbrev Registry := List (String × List ObjClass)

/-- The latest registered class for a name (head of the newest-first
list). -/
def latestClass (reg : Registry) (name : String) : Option ObjClass :=
  match alistFind reg name with
  | some (c :: _) => some c
  | _ => none

/-- The loop body of `obj_class_from_name`: scan the registered classes,
returning an exact version match immediately and otherwise remembering
the first compatible class seen; when the scan ends, the remembered
class wins, else `IncompatibleObjectVersion` is raised carrying the
version of the first (latest) registered class. -/
def classSearch (objname : String) (objver : Ver) (allClasses : List ObjClass) :
    List ObjClass → Option ObjClass → Except ObjErr ObjClass
  | [], compatibleMatch =>
    match compatibleMatch with
    | some c => .ok c
    | none =>
      match allClasses.head? with
      | some c0 => .error (.incompatibleObjectVersion objname objver c0.version)
      | none => .error .indexError
  | c :: rest, compatibleMatch =>
    if c.version = objver then .ok c
    else
      classSearch objname objver allClasses rest
        (match compatibleMatch with
         | some m => some m
         | none => if is_compatible objver c.version then some c else none)

/-- Embedding of `NovaObject.obj_class_from_name`. -/
def obj_class_from_name (reg : Registry) (objname : String) (objver : Ver) :
    Except ObjErr ObjClass :=
  match alistFind reg objname with
  | none => .error (.unsupportedObjectError objname)
  | some classes => classSearch objname objver classes classes none

/-- The walk of `obj_calculate_child_version` over one relationship list,
carrying the child version of the previously passed entry (`none` while
still at index 0).  Falling off the end of an empty list indexes
`rels[-1]` in the source and raises `IndexError`. -/
def calcChildWalk (target : Ver) : List (Ver × Ver) → Option Ver → Except ObjErr (Option Ver)
  | [], prev =>
    match prev with
    | some c => .ok (some c)
    | none => .error .indexError
  | (myVersion, childVersion) :: rest, prev =>
    if vlt target myVersion then
      match prev with
      | none => .ok none
      | some c => .ok (some c)
    else if target = myVersion then .ok (some childVersion)
    else calcChildWalk target rest (some childVersion)

/-- Embedding of `NovaObject.obj_calculate_child_version`: `.ok none`
means the child is to be deleted from the primitive. -/
def obj_calculate_child_version (relationships : List (String × List (Ver × Ver)))
    (target : Ver) (child : String) : Except ObjErr (Option Ver) :=
  match alistFind relationships child with
  | none => .error (.keyError child)
  | some rels => calcChildWalk target rels none

mutual
/-- A field value of an entity instance: a scalar primitive, null, a
nested entity (`ObjectField` value) or a list of entities
(`ListOfObjectsField` value). -/
inductive Val where
  | vnum (n : Nat)
  | vstr (s : String)
  | vnull
  | vobj (o : Obj)
  | vlist (os : ObjList)
deriving DecidableEq
/-- An entity instance: wire name, `VERSION`, whether a request context
is bound (`_context is not None`), the set fields with their values, and
`_changed_fields`. -/
inductive Obj where
  | mk (name : String) (version : Ver) (hasCtx : Bool)
       (data : VData) (changed : List String)
deriving DecidableEq
/-- The set fields of an instance, as an association list. -/
inductive VData where
  | nil
  | cons (k : String) (v : Val) (rest : VData)
deriving DecidableEq
/-- A list of entity instances (the value of a `ListOfObjectsField`). -/
inductive ObjList where
  | nil
  | cons (o : Obj) (rest : ObjList)
deriving DecidableEq
end

def Obj.name : Obj → String
  | .mk n _ _ _ _ => n

def Obj.version : Obj → Ver
  | .mk _ v _ _ _ => v

def Obj.hasCtx : Obj → Bool
  | .mk _ _ c _ _ => c

def Obj.data : Obj → VData
  | .mk _ _ _ d _ => d

def Obj.changed : Obj → List String
  | .mk _ _ _ _ ch => ch

/-- Lookup of a set field (`getattr` guarded by `obj_attr_is_set`). -/
def VData.find : VData → String → Option Val
  | .nil, _ => none
  | .cons k v rest, n => if k = n then some v else VData.find rest n

/-- The entries of a `VData` as a plain list. -/
def VData.entries : VData → List (String × Val)
  | .nil => []
  | .cons k v rest => (k, v) :: VData.entries rest

mutual
/-- Embedding of `NovaObject.obj_what_changed`: the own changed fields,
plus the name of every set field whose value is an entity with a
non-empty change set of its own (`isinstance(getattr(self, field),
NovaObject) and getattr(self, field).obj_what_changed()`). -/
def obj_what_changed : Obj → List String
  | .mk _ _ _ data changed =>
    changed ++ (wcPropagated data).filter (fun f => !(changed.contains f))
termination_by structural o => o
/-- The set fields whose value is an entity with changes of its own. -/
def wcPropagated : VData → List String
  | .nil => []
  | .cons k v rest =>
    (match v with
     | .vobj c => if (obj_what_changed c).isEmpty then [] else [k]
     | _ => []) ++ wcPropagated rest
termination_by structural d => d
end

/-- Python truthiness of the `fields` argument of `obj_reset_changes`:
`None` and the empty list are both falsy. -/
def fieldsTruthy : Option (List String) → Bool
  | some (_ :: _) => true
  | _ => false

/-- The top-level filter of `obj_reset_changes`: a field is skipped when
a truthy `fields` argument does not contain it. -/
def fieldsPass (fields : Option (List String)) (k : String) : Bool :=
  !(fieldsTruthy fields) || (fields.getD []).contains k

mutual
/-- Embedding of `NovaObject.obj_reset_changes`.  When `recursive`, every
field reported by `obj_get_changes` that passes the top-level filter and
whose value is a (non-null) entity or entity list has its changes reset
with `recursive=True` and no field filter; afterwards the own changed
set is cleared entirely, or only of the given fields when the `fields`
argument is truthy. -/
def obj_reset_changes (o : Obj) (fields : Option (List String)) (recursive : Bool) : Obj :=
  match o with
  | .mk name version hasCtx data changed =>
    let data' :=
      if recursive then
        resetData (obj_what_changed (.mk name version hasCtx data changed)) fields data
      else data
    let changed' :=
      if fieldsTruthy fields then changed.filter (fun f => !((fields.getD []).contains f))
      else []
    .mk name version hasCtx data' changed'
termination_by structural o
/-- The recursive part of `obj_reset_changes`: walk the set fields and
reset those that are in the changed set and pass the filter. -/
def resetData (changedKeys : List String) (fields : Option (List String)) : VData → VData
  | .nil => .nil
  | .cons k v rest =>
    let hit := changedKeys.contains k && fieldsPass fields k
    .cons k (if hit then resetVal v else v) (resetData changedKeys fields rest)
termination_by structural d => d
/-- Reset one field value: entities and entity lists are reset fully
(`recursive=True`, no field filter); nulls and scalars are left alone. -/
def resetVal : Val → Val
  | .vobj c => .vobj (obj_reset_changes c none true)
  | .vlist os => .vlist (resetList os)
  | v => v
termination_by structural v => v
/-- Reset every element of an entity list. -/
def resetList : ObjList → ObjList
  | .nil => .nil
  | .cons c rest => .cons (obj_reset_changes c none true) (resetList rest)
termination_by structural os => os
end

mutual
/-- A wire-side value: a serialized scalar, null, the wire primitive of
an entity, or a list of wire primitives. -/
inductive Prim where
  | pnum (n : Nat)
  | pstr (s : String)
  | pnull
  | pwire (w : Wire)
  | pwires (ws : WireList)
deriving DecidableEq
/-- The wire primitive of one entity: the `nova_object.name`,
`nova_object.namespace`, `nova_object.version`, `nova_object.data` and
optional `nova_object.changes` keys of the serialized dict. -/
inductive Wire where
  | mk (name : String) (ns : String) (version : Ver)
       (data : PData) (changes : Option (List String))
deriving DecidableEq
/-- The `nova_object.data` map: serialized field values by field name. -/
inductive PData where
  | nil
  | cons (k : String) (p : Prim) (rest : PData)
deriving DecidableEq
/-- A list of wire primitives (serialized `ListOfObjectsField` value). -/
inductive WireList where
  | nil
  | cons (w : Wire) (rest : WireList)
deriving DecidableEq
end

def Wire.name : Wire → String
  | .mk n _ _ _ _ => n

def Wire.ns : Wire → String
  | .mk _ s _ _ _ => s

def Wire.version : Wire → Ver
  | .mk _ _ v _ _ => v

def Wire.data : Wire → PData
  | .mk _ _ _ d _ => d

def Wire.changes : Wire → Option (List String)
  | .mk _ _ _ _ ch => ch

/-- Replace the version of a wire primitive (assignment to the
`nova_object.version` key). -/
def Wire.setVersion : Wire → Ver → Wire
  | .mk n s _ d ch, v => .mk n s v d ch

def PData.find : PData → String → Option Prim
  | .nil, _ => none
  | .cons k p rest, n => if k = n then some p else PData.find rest n

/-- Delete a key from a data map (`del primitive[field]`). -/
def PData.erase : PData → String → PData
  | .nil, _ => .nil
  | .cons k p rest, n =>
    if k = n then PData.erase rest n else .cons k p (PData.erase rest n)

/-- Assign a value to an existing key of a data map
(`primitive[field] = value`; keys are unique by construction). -/
def PData.setVal : PData → String → Prim → PData
  | .nil, _, _ => .nil
  | .cons k p rest, n, q =>
    .cons k (if k = n then q else p) (PData.setVal rest n q)

/-- The keys of a data map. -/
def PData.keys : PData → List String
  | .nil => []
  | .cons k _ rest => k :: PData.keys rest

/-- The keys of an instance data map. -/
def VData.keys : VData → List String
  | .nil => []
  | .cons k _ rest => k :: VData.keys rest

/-- The `nova_object.changes` entry `obj_to_primitive` attaches: present
exactly when `obj_what_changed` is non-empty. -/
def changesOpt (o : Obj) : Option (List String) :=
  if (obj_what_changed o).isEmpty then none else some (obj_what_changed o)

mutual
/-- Modelled from the spec (the field descriptors of
`nova/objects/fields.py` are not among the sources): serialization of
one field value via its field descriptor.  Scalars and null serialize as
themselves, an entity serializes as its own wire primitive
(`value.obj_to_primitive()` with no target version), an entity list as
the list of the element primitives. -/
def valToPrim : Val → Prim
  | .vnum n => .pnum n
  | .vstr s => .pstr s
  | .vnull => .pnull
  | .vobj c => .pwire (objToWire c)
  | .vlist os => .pwires (objsToWires os)
termination_by structural v => v
/-- Serialize every set field of an instance (the loop of
`obj_to_primitive` over the declared fields that are set). -/
def dataToPrim : VData → PData
  | .nil => .nil
  | .cons k v rest => .cons k (valToPrim v) (dataToPrim rest)
termination_by structural d => d
/-- The wire primitive `obj_to_primitive` builds when no target version
is requested: namespace "nova", the instance name and version, the
serialized set fields, and the changes list when non-empty. -/
def objToWire : Obj → Wire
  | .mk name version hasCtx data changed =>
    .mk name "nova" version (dataToPrim data)
      (changesOpt (.mk name version hasCtx data changed))
termination_by structural o => o
/-- Serialize every element of an entity list. -/
def objsToWires : ObjList → WireList
  | .nil => .nil
  | .cons c rest => .cons (objToWire c) (objsToWires rest)
termination_by structural os => os
end

mutual
/-- Embedding of `NovaObject.obj_from_primitive`: reject a foreign
namespace with `UnsupportedObjectError` (naming `namespace.name`),
resolve the class through the registry, then hydrate field by field
(`_obj_from_primitive`): the new instance carries the supplied context,
the version string of the primitive, the hydrated declared fields
present in the data, and the changes list intersected with the declared
fields. -/
def obj_from_primitive (reg : Registry) (ctx : Bool) : Wire → Except ObjErr Obj
  | .mk wname wns wver wdata wchanges =>
    if wns ≠ "nova" then .error (.unsupportedObjectError (wns ++ "." ++ wname))
    else
      match obj_class_from_name reg wname wver with
      | .error e => .error e
      | .ok cls =>
        match hydrateData reg ctx cls.fields wdata with
        | .error e => .error e
        | .ok data' =>
          .ok (.mk cls.name wver ctx data'
            ((wchanges.getD []).filter (fun x => (alistFind cls.fields x).isSome)))
termination_by structural w => w
/-- The field loop of `_obj_from_primitive`: hydrate every entry of the
wire data that names a declared field, via its field descriptor. -/
def hydrateData (reg : Registry) (ctx : Bool) (flds : List (String × FieldKind)) :
    PData → Except ObjErr VData
  | .nil => .ok .nil
  | .cons k p rest =>
    match alistFind flds k with
    | none => hydrateData reg ctx flds rest
    | some kind =>
      match fieldFromPrim reg ctx kind p with
      | .error e => .error e
      | .ok v =>
        match hydrateData reg ctx flds rest with
        | .error e => .error e
        | .ok vs => .ok (.cons k v vs)
termination_by structural d => d
/-- Modelled from the spec (the field descriptors of
`nova/objects/fields.py` are not among the sources): hydration of one
field value via its field descriptor.  Null hydrates as null, scalars as
themselves, an `ObjectField` value through `obj_from_primitive`, a
`ListOfObjectsField` value elementwise; a value whose shape does not
match the declared kind is a coercion error. -/
def fieldFromPrim (reg : Registry) (ctx : Bool) (kind : FieldKind) :
    Prim → Except ObjErr Val
  | .pnull => .ok .vnull
  | .pnum n =>
    match kind with
    | .scalar => .ok (.vnum n)
    | _ => .error .valueError
  | .pstr s =>
    match kind with
    | .scalar => .ok (.vstr s)
    | _ => .error .valueError
  | .pwire w =>
    match kind with
    | .objectField =>
      match obj_from_primitive reg ctx w with
      | .error e => .error e
      | .ok c => .ok (.vobj c)
    | _ => .error .valueError
  | .pwires ws =>
    match kind with
    | .listOfObjectsField =>
      match hydrateWires reg ctx ws with
      | .error e => .error e
      | .ok os => .ok (.vlist os)
    | _ => .error .valueError
termination_by structural p => p
/-- Hydrate every element of a serialized entity list. -/
def hydrateWires (reg : Registry) (ctx : Bool) : WireList → Except ObjErr ObjList
  | .nil => .ok .nil
  | .cons w rest =>
    match obj_from_primitive reg ctx w with
    | .error e => .error e
    | .ok o =>
      match hydrateWires reg ctx rest with
      | .error e => .error e
      | .ok os => .ok (.cons o os)
termination_by structural ws => ws
end

/-- Embedding of `NovaObject._obj_from_primitive` on its own: hydrate
with a class already resolved and stamp the given version.  The body of
`obj_from_primitive` reduces to this after namespace check and class
resolution. -/
def _obj_from_primitive (reg : Registry) (ctx : Bool) (cls : ObjClass) (objver : Ver)
    (w : Wire) : Except ObjErr Obj :=
  match hydrateData reg ctx cls.fields w.data with
  | .error e => .error e
  | .ok data' =>
    .ok (.mk cls.name objver ctx data'
      (((w.changes).getD []).filter (fun x => (alistFind cls.fields x).isSome)))

mutual
/-- Embedding of `NovaObject.obj_make_compatible`: walk the declared
fields of the class; for every `ObjectField` or `ListOfObjectsField`
that is set, fail with `ObjectActionError` when `obj_relationships` has
no entry for it, else backlevel the serialized sub-object through
`_obj_make_obj_compatible`. -/
def obj_make_compatible (reg : Registry) (cls : ObjClass) (o : Obj) (prim : PData)
    (target : Ver) : Except ObjErr PData :=
  match o with
  | .mk _ _ _ data _ => omcData reg cls.relationships cls.fields data prim target
termination_by structural o
/-- The field loop of `obj_make_compatible` (the set fields, filtered
through the declared field table). -/
def omcData (reg : Registry) (rels : List (String × List (Ver × Ver)))
    (flds : List (String × FieldKind)) : VData → PData → Ver → Except ObjErr PData
  | .nil, prim, _ => .ok prim
  | .cons k v rest, prim, target =>
    match alistFind flds k with
    | none => omcData reg rels flds rest prim target
    | some kind =>
      if isComposed kind then
        if (alistFind rels k).isNone then
          .error (.objectActionError "obj_make_compatible" ("No rule for " ++ k))
        else
          match _obj_make_obj_compatible reg rels v k prim target with
          | .error e => .error e
          | .ok prim' => omcData reg rels flds rest prim' target
      else omcData reg rels flds rest prim target
termination_by structural d _ _ => d
/-- Embedding of `NovaObject._obj_make_obj_compatible` with the local
`_do_backport` closure inlined: compute the child target version; `none`
deletes the field from the primitive; otherwise a null child is left
alone, a single entity child is backported when the computed version
differs from its recorded one and its recorded version is stamped, and
every element of an entity-list child is backported and stamped.  The
child class is resolved as the latest registered class of the child
name (the source calls the method of the instance class). -/
def _obj_make_obj_compatible (reg : Registry)
    (rels : List (String × List (Ver × Ver))) (v : Val) (field : String)
    (prim : PData) (target : Ver) : Except ObjErr PData :=
  match obj_calculate_child_version rels target field with
  | .error e => .error e
  | .ok none => .ok (prim.erase field)
  | .ok (some toVersion) =>
    match v with
    | .vobj c =>
      (match prim.find field with
       | some (.pwire (.mk cwname cwns cwver cwdata cwchanges)) =>
         if toVersion ≠ cwver then
           match latestClass reg c.name with
           | none => .error (.unsupportedObjectError c.name)
           | some ccls =>
             match obj_make_compatible reg ccls c cwdata toVersion with
             | .error e => .error e
             | .ok cwdata' =>
               .ok (prim.setVal field (.pwire (.mk cwname cwns toVersion cwdata' cwchanges)))
         else .ok (prim.setVal field (.pwire (.mk cwname cwns toVersion cwdata cwchanges)))
       | some _ => .error .valueError
       | none => .error (.keyError field))
    | .vlist os =>
      (match prim.find field with
       | some (.pwires ws) =>
         match backportWires reg toVersion os ws with
         | .error e => .error e
         | .ok ws' => .ok (prim.setVal field (.pwires ws'))
       | some _ => .error .valueError
       | none => .error (.keyError field))
    | _ => .ok prim
termination_by structural v
/-- The entity-list branch of `_do_backport`: backport each serialized
element against the corresponding instance element and stamp the
computed version; the element wires are indexed by the positions of the
instance list, so a too-short wire list is an `IndexError`. -/
def backportWires (reg : Registry) (toVersion : Ver) :
    ObjList → WireList → Except ObjErr WireList
  | .nil, ws => .ok ws
  | .cons _ _, .nil => .error .indexError
  | .cons c crest, .cons (.mk cwname cwns _ cwdata cwch) wrest =>
    match latestClass reg c.name with
    | none => .error (.unsupportedObjectError c.name)
    | some ccls =>
      match obj_make_compatible reg ccls c cwdata toVersion with
      | .error e => .error e
      | .ok cwdata' =>
        match backportWires reg toVersion crest wrest with
        | .error e => .error e
        | .ok wrest' => .ok (.cons (.mk cwname cwns toVersion cwdata' cwch) wrest')
termination_by structural os _ => os
end

/-- Embedding of `NovaObject.obj_to_primitive`: serialize every set
field; when a target version is requested, run `obj_make_compatible`
over the serialized data first; wrap with namespace "nova", the name,
the target version (or the own version), and the changes list when
`obj_what_changed` is non-empty. -/
def obj_to_primitive (reg : Registry) (cls : ObjClass) (o : Obj)
    (targetVersion : Option Ver) : Except ObjErr Wire :=
  let primitive := dataToPrim o.data
  match targetVersion with
  | some t =>
    match obj_make_compatible reg cls o primitive t with
    | .error e => .error e
    | .ok primitive' => .ok (.mk o.name "nova" t primitive' (changesOpt o))
  | none => .ok (.mk o.name "nova" o.version primitive (changesOpt o))

/-- An argument of a remotable instance call: either a request context
(`isinstance(args[0], context.RequestContext)` holds) or any other
value. -/
inductive CallArg where
  | requestContext
  | plain (n : Nat)
deriving DecidableEq

/-- Embedding of the `remotable` decorator guards: a leading positional
request context is rejected as deprecated usage with
`ObjectActionError`; then an instance with no bound context fails with
`OrphanedObjectError` naming the method and the type.  The dispatch that
follows (indirection transport or the local implementation) is
abstracted as `body`. -/
def remotable (o : Obj) (fnName : String) (args : List CallArg)
    (body : Obj → List CallArg → Nat) : Except ObjErr Nat :=
  match args with
  | .requestContext :: _ =>
    .error (.objectActionError fnName "Calling remotables with context is deprecated")
  | _ =>
    if o.hasCtx then .ok (body o args)
    else .error (.orphanedObjectError fnName o.name)

/-- Embedding of `NovaObjectSerializer._process_object`.  The backport
authority (`conductor.object_backport`, an external collaborator) is a
parameter.  Only `IncompatibleObjectVersion` is caught: when the version
of the primitive has a PATCH component (three parts, i.e. the version
string contains two dots) the version is truncated to MAJOR.MINOR and
the primitive is processed again; otherwise, when the name has
registered classes, the authority backports the primitive to the first
(latest) registered version and its result is returned; with no
registered classes the error is re-raised. -/
def _process_object (reg : Registry) (backport : Bool → Wire → Ver → Obj) (ctx : Bool)
    (w : Wire) : Except ObjErr Obj :=
  match obj_from_primitive reg ctx w with
  | .ok objinst => .ok objinst
  | .error e =>
    match e with
    | .incompatibleObjectVersion a b c =>
      if (Wire.version w).length = 3 then
        _process_object reg backport ctx (Wire.setVersion w ((Wire.version w).take 2))
      else
        match alistFind reg (Wire.name w) with
        | some (c0 :: _) => .ok (backport ctx w c0.version)
        | _ => .error (.incompatibleObjectVersion a b c)
    | e' => .error e'
termination_by (Wire.version w).length
decreasing_by cases w; simp_all [Wire.setVersion, Wire.version]

/-- Whether a stored value matches the declared kind of its field. -/
def kindOK : FieldKind → Val → Bool
  | _, .vnull => true
  | .scalar, .vnum _ => true
  | .scalar, .vstr _ => true
  | .objectField, .vobj _ => true
  | .listOfObjectsField, .vlist _ => true
  | _, _ => false

mutual
/-- Well-formedness of an instance against a registry: its name and
version resolve to a class of the same name, every set field is declared
with a kind matching the shape of the stored value, and nested entities
are well-formed in turn. -/
def wfObj (reg : Registry) : Obj → Bool
  | .mk name version _ data _ =>
    match obj_class_from_name reg name version with
    | .ok cls => cls.name == name && wfData reg cls.fields data
    | .error _ => false
termination_by structural o => o
/-- Well-formedness of the set fields against a declared field table. -/
def wfData (reg : Registry) (flds : List (String × FieldKind)) : VData → Bool
  | .nil => true
  | .cons k v rest =>
    (match alistFind flds k with
     | some kind => kindOK kind v && wfVal reg v
     | none => false) && wfData reg flds rest
termination_by structural d => d
/-- Well-formedness of one stored value. -/
def wfVal (reg : Registry) : Val → Bool
  | .vobj c => wfObj reg c
  | .vlist os => wfObjs reg os
  | _ => true
termination_by structural v => v
/-- Well-formedness of every element of an entity list. -/
def wfObjs (reg : Registry) : ObjList → Bool
  | .nil => true
  | .cons c rest => wfObj reg c && wfObjs reg rest
termination_by structural os => os
end

mutual
/-- Normalize an instance for comparison that ignores the changed-field
sets and the bound contexts, recursively (the comparison the spec calls
"equality ignoring changes", cf. `obj_equal_prims`). -/
def scrub : Obj → Obj
  | .mk name version _ data _ => .mk name version false (scrubData data) []
termination_by structural o => o
/-- Normalize every stored field value. -/
def scrubData : VData → VData
  | .nil => .nil
  | .cons k v rest => .cons k (scrubVal v) (scrubData rest)
termination_by structural d => d
/-- Normalize one stored value. -/
def scrubVal : Val → Val
  | .vobj c => .vobj (scrub c)
  | .vlist os => .vlist (scrubList os)
  | v => v
termination_by structural v => v
/-- Normalize every element of an entity list. -/
def scrubList : ObjList → ObjList
  | .nil => .nil
  | .cons c rest => .cons (scrub c) (scrubList rest)
termination_by structural os => os
end

mutual
/-- Modelled from the spec: the literal reading of the sentence
"`what_changed` returns the own changed fields union the changed-field
sets of any currently-set Entity/EntityList-typed fields" — the union
of the own changed set with the elements of the nested change sets. -/
def spec_what_changed : Obj → List String
  | .mk _ _ _ data changed => changed ++ specPropagated data
termination_by structural o => o
/-- The union of the change sets of the set entity fields, as the spec
sentence reads. -/
def specPropagated : VData → List String
  | .nil => []
  | .cons _ v rest =>
    (match v with
     | .vobj c => spec_what_changed c
     | _ => []) ++ specPropagated rest
termination_by structural d => d
end

/-! Concrete instances used by witnesses and counterexamples. -/

/-- The relationship table of the worked example in the spec:
`[("1.2", "1.0"), ("1.4", "1.2")]` for field `child`. -/
def exRels : List (String × List (Ver × Ver)) :=
  [("child", [([1,2], [1,0]), ([1,4], [1,2])])]

/-- A one-field child class. -/
def childCls : ObjClass := ⟨"Child", [1,0], [("x", .scalar)], []⟩

/-- An owner class with a scalar, an entity field and an entity-list
field, with relationship entries for both composed fields. -/
def ownerCls : ObjClass :=
  ⟨"Owner", [1,0],
   [("a", .scalar), ("child", .objectField), ("kids", .listOfObjectsField)],
   [("child", [([1,0], [1,0])]), ("kids", [([1,0], [1,0])])]⟩

/-- An owner class whose composed field `child` was added at owner
version 1.1 (single relationship entry). -/
def ownerClsD : ObjClass :=
  ⟨"Owner", [1,0], [("child", .objectField)], [("child", [([1,1], [1,0])])]⟩

/-- A registry holding the example owner and child classes. -/
def exReg : Registry := [("Owner", [ownerCls]), ("Child", [childCls])]

/-- A child instance with field `x` set and marked changed. -/
def childO : Obj := .mk "Child" [1,0] false (.cons "x" (.vnum 7) .nil) ["x"]

/-- An owner instance with all three fields set and no own changes. -/
def ownerO : Obj := .mk "Owner" [1,0] true
  (.cons "a" (.vstr "hi")
    (.cons "child" (.vobj childO)
      (.cons "kids" (.vlist (.cons childO .nil)) .nil))) []

/-- An owner instance with only the composed field `child` set. -/
def ownerD : Obj := .mk "Owner" [1,0] true (.cons "child" (.vobj childO) .nil) []

/-- Registered classes of the name `Foo` at versions 1.3 and 1.0. -/
def fooCls (v : Ver) : ObjClass := ⟨"Foo", v, [], []⟩

/-- A registry holding `Foo` at versions 1.3 and 1.0, newest first. -/
def fooReg : Registry := [("Foo", [fooCls [1,3], fooCls [1,0]])]

/-- A backport authority that records the version it was asked for. -/
def exBackport : Bool → Wire → Ver → Obj := fun _ _ v => .mk "BP" v false .nil []

/-- The `prev` accumulator `calcChildWalk` carries after passing a
prefix of the relationship list: the child version of its last entry. -/
def lastChild : List (Ver × Ver) → Option Ver → Option Ver
  | [], prev => prev
  | p :: rest, _ => lastChild rest (some p.2)

/-- A child instance whose version is 1.2 (the newest child version of
the worked relationship table). -/
def childO2 : Obj := .mk "Child" [1,2] false (.cons "x" (.vnum 7) .nil) []

/-- An owner with no own changes holding a child entity whose field `x`
is marked changed. -/
def c5owner : Obj := .mk "O" [1,0] false
  (.cons "child" (.vobj (.mk "C" [1,0] false .nil ["x"])) .nil) []

/-- An owner class with a composed field but an empty relationship
table. -/
def badCls : ObjClass := ⟨"Owner", [1,0], [("child", .objectField)], []⟩

/-! ### Theorems -/

/-- Python tuple `<` is irreflexive. -/
theorem vlt_irrefl : ∀ a : Ver, vlt a a = false
  | [] => rfl
  | x :: xs => by simp [vlt, Nat.lt_irrefl, vlt_irrefl xs]

/-- Python tuple `<` relates no pair in both directions. -/
theorem vlt_asymm : ∀ a b : Ver, vlt a b = true → vlt b a = false := by
  intro a
  induction a with
  | nil =>
    intro b h
    cases b with
    | nil => simp [vlt] at h
    | cons y ys => simp [vlt]
  | cons x xs ih =>
    intro b h
    cases b with
    | nil => simp [vlt] at h
    | cons y ys =>
      simp only [vlt] at h ⊢
      by_cases hxy : x < y
      · have hyx : ¬ y < x := by omega
        simp [hxy, hyx]
      · by_cases hyx : y < x
        · simp [hxy, hyx] at h
        · simp [hxy, hyx] at h ⊢
          exact ih ys h

/-- Python tuple `<` is transitive. -/
theorem vlt_trans : ∀ a b c : Ver, vlt a b = true → vlt b c = true → vlt a c = true := by
  intro a
  induction a with
  | nil =>
    intro b c hab hbc
    cases c with
    | nil =>
      cases b with
      | nil => simp [vlt] at hab
      | cons y ys => simp [vlt] at hbc
    | cons z zs => simp [vlt]
  | cons x xs ih =>
    intro b c hab hbc
    cases b with
    | nil => simp [vlt] at hab
    | cons y ys =>
      cases c with
      | nil => simp [vlt] at hbc
      | cons z zs =>
        simp only [vlt] at hab hbc ⊢
        by_cases hxy : x < y <;> by_cases hyz : y < z
        · have : x < z := by omega
          simp [this]
        · by_cases hzy : z < y
          · simp [hxy, hyz, hzy] at hbc
          · have hyz' : y = z := by omega
            have : x < z := by omega
            simp [this]
        · by_cases hyx : y < x
          · simp [hxy, hyx] at hab
          · have : x < z := by omega
            simp [this]
        · by_cases hyx : y < x
          · simp [hxy, hyx] at hab
          · by_cases hzy : z < y
            · simp [hyz, hzy] at hbc
            · have hxz : ¬ x < z := by omega
              have hzx : ¬ z < x := by omega
              simp [hxy, hyx] at hab
              simp [hyz, hzy] at hbc
              simp [hxz, hzx]
              exact ih ys zs hab hbc

/-- A strictly smaller version tuple is a different tuple. -/
theorem vlt_ne {a b : Ver} (h : vlt a b = true) : a ≠ b := by
  intro he
  subst he
  rw [vlt_irrefl] at h
  exact Bool.noConfusion h

/-- C4: a remotable instance call with a request context as the leading
positional argument fails with `ObjectActionError` (deprecated usage),
and a remotable instance call on an instance with no bound context (and
no leading positional context) fails with `OrphanedObjectError` naming
the method and the type — for every method name and body. -/
theorem claim_C4 (o : Obj) (fnName : String) (args : List CallArg)
    (body : Obj → List CallArg → Nat) :
    (args.head? = some .requestContext →
      remotable o fnName args body =
        .error (.objectActionError fnName "Calling remotables with context is deprecated")) ∧
    (args.head? ≠ some .requestContext → o.hasCtx = false →
      remotable o fnName args body = .error (.orphanedObjectError fnName o.name)) := by
  constructor
  · intro h
    match args, h with
    | .requestContext :: rest, _ => rfl
  · intro h hctx
    match args, h with
    | [], _ => simp [remotable, hctx]
    | .plain n :: rest, _ => simp [remotable, hctx]

/-- Witness for C4 at an orphaned instance and at a context-leading
argument list. -/
theorem claim_C4_witness :
    remotable (.mk "Instance" [1,0] false .nil []) "save" [] (fun _ _ => 0) =
      .error (.orphanedObjectError "save" "Instance") ∧
    remotable (.mk "Instance" [1,0] true .nil []) "save" [.requestContext] (fun _ _ => 0) =
      .error (.objectActionError "save" "Calling remotables with context is deprecated") :=
  ⟨(claim_C4 (.mk "Instance" [1,0] false .nil []) "save" [] (fun _ _ => 0)).2
     (by decide) (by rfl),
   (claim_C4 (.mk "Instance" [1,0] true .nil []) "save" [.requestContext] (fun _ _ => 0)).1
     (by rfl)⟩

/-- C10: hydration of a primitive whose namespace marker is not "nova"
fails with `UnsupportedObjectError` naming `namespace.name`, for every
registry (so before any registry lookup of the name can matter); and a
successfully hydrated instance carries the version string of the wire
primitive as its own version. -/
theorem claim_C10 (reg : Registry) (ctx : Bool) (w : Wire) :
    (w.ns ≠ "nova" →
      obj_from_primitive reg ctx w =
        .error (.unsupportedObjectError (w.ns ++ "." ++ w.name))) ∧
    (∀ o, obj_from_primitive reg ctx w = .ok o → o.version = w.version) := by
  cases w with
  | mk wname wns wver wdata wch =>
    constructor
    · intro h
      simp only [Wire.ns, Wire.name] at h ⊢
      simp [obj_from_primitive, h]
    · intro o ho
      simp only [obj_from_primitive] at ho
      split at ho
      · exact absurd ho (by simp)
      · revert ho
        cases obj_class_from_name reg wname wver with
        | error e => intro ho; exact absurd ho (by simp)
        | ok cls =>
          cases hd : hydrateData reg ctx cls.fields wdata with
          | error e => intro ho; simp [hd] at ho
          | ok data' =>
            intro ho
            simp [hd] at ho
            subst ho
            rfl

/-- Witness for C10: a primitive in a foreign namespace is rejected even
when its name is registered. -/
theorem claim_C10_witness :
    obj_from_primitive exReg false (.mk "Owner" "other" [1,0] .nil none) =
      .error (.unsupportedObjectError "other.Owner") :=
  (claim_C10 exReg false (.mk "Owner" "other" [1,0] .nil none)).1 (by decide)

/-- The walk of `calcChildWalk` passes over every entry whose owner
version is below the target, carrying the child version of the last
entry passed. -/
theorem calcChildWalk_append (target : Ver) :
    ∀ (pre l : List (Ver × Ver)) (prev : Option Ver),
      (∀ p ∈ pre, vlt p.1 target = true) →
      calcChildWalk target (pre ++ l) prev = calcChildWalk target l (lastChild pre prev) := by
  intro pre
  induction pre with
  | nil =>
    intro l prev h
    rfl
  | cons p pre' ih =>
    intro l prev h
    obtain ⟨m, c⟩ := p
    have hp : vlt m target = true := h (m, c) (by simp)
    have h1 : vlt target m = false := vlt_asymm _ _ hp
    have h2 : ¬ (target = m) := fun he => (vlt_ne hp) he.symm
    simp only [List.cons_append, calcChildWalk, h1, if_false, Bool.false_eq_true, h2, if_neg,
      lastChild]
    exact ih l (some c) (fun q hq => h q (by simp [hq]))

/-- C1 (amended): the ordered `(owner_version, child_version)` list is
walked ascending.  Below the first entry the field is deleted from the
primitive (also for targets such as "1.1" that the spec example claims
map to the first child version); an exact owner-version match uses the
child version of that entry; strictly between two consecutive entries
the child version of the earlier entry is used (so the spec example
"backport to 1.3 yields 1.2" actually yields 1.0); at or above the last
entry the child version of the last entry is computed, and a child
already serialized at that version is left unchanged (upper bound
only). -/
theorem claim_C1 (relsTable : List (String × List (Ver × Ver))) (child : String)
    (t : Ver) (rels : List (Ver × Ver))
    (halist : alistFind relsTable child = some rels)
    (hsort : List.Pairwise (fun a b => vlt a.1 b.1 = true) rels) :
    (∀ m0 c0 rest, rels = (m0, c0) :: rest → vlt t m0 = true →
      obj_calculate_child_version relsTable t child = .ok none ∧
      ∀ (reg : Registry) (v : Val) (prim : PData),
        _obj_make_obj_compatible reg relsTable v child prim t = .ok (prim.erase child)) ∧
    (∀ pre c post, rels = pre ++ (t, c) :: post →
      obj_calculate_child_version relsTable t child = .ok (some c)) ∧
    (∀ pre m1 c1 m2 c2 post, rels = pre ++ (m1, c1) :: (m2, c2) :: post →
      vlt m1 t = true → vlt t m2 = true →
      obj_calculate_child_version relsTable t child = .ok (some c1)) ∧
    (∀ pre ml cl, rels = pre ++ [(ml, cl)] → vlt ml t = true →
      obj_calculate_child_version relsTable t child = .ok (some cl)) ∧
    (∀ (reg : Registry) (c : Obj) (prim : PData) (w : Wire) (cv : Ver),
      obj_calculate_child_version relsTable t child = .ok (some cv) →
      prim.find child = some (.pwire w) → w.version = cv →
      _obj_make_obj_compatible reg relsTable (.vobj c) child prim t =
        .ok (prim.setVal child (.pwire w))) := by
  refine ⟨?_, ?_, ?_, ?_, ?_⟩
  · intro m0 c0 rest hre hv
    have hcalc : obj_calculate_child_version relsTable t child = .ok none := by
      simp only [obj_calculate_child_version, halist, hre, calcChildWalk, hv, if_true]
    refine ⟨hcalc, ?_⟩
    intro reg v prim
    simp only [_obj_make_obj_compatible, hcalc]
  · intro pre c post hre
    subst hre
    have hpre : ∀ p ∈ pre, vlt p.1 t = true := by
      intro p hp
      have := (List.pairwise_append.mp hsort).2.2 p hp (t, c) (by simp)
      exact this
    simp only [obj_calculate_child_version, halist]
    rw [calcChildWalk_append t pre _ none hpre]
    simp [calcChildWalk, vlt_irrefl]
  · intro pre m1 c1 m2 c2 post hre hm1 hm2
    subst hre
    have hpre : ∀ p ∈ pre, vlt p.1 t = true := by
      intro p hp
      have h1 : vlt p.1 m1 = true :=
        (List.pairwise_append.mp hsort).2.2 p hp (m1, c1) (by simp)
      exact vlt_trans _ _ _ h1 hm1
    simp only [obj_calculate_child_version, halist]
    rw [calcChildWalk_append t pre _ none hpre]
    have h1 : vlt t m1 = false := vlt_asymm _ _ hm1
    have h2 : ¬ (t = m1) := fun he => (vlt_ne hm1) he.symm
    simp [calcChildWalk, h1, h2, hm2]
  · intro pre ml cl hre hml
    subst hre
    have hpre : ∀ p ∈ pre, vlt p.1 t = true := by
      intro p hp
      have h1 : vlt p.1 ml = true :=
        (List.pairwise_append.mp hsort).2.2 p hp (ml, cl) (by simp)
      exact vlt_trans _ _ _ h1 hml
    simp only [obj_calculate_child_version, halist]
    rw [calcChildWalk_append t pre _ none hpre]
    have h1 : vlt t ml = false := vlt_asymm _ _ hml
    have h2 : ¬ (t = ml) := fun he => (vlt_ne hml) he.symm
    simp [calcChildWalk, h1, h2]
  · intro reg c prim w cv hcalc hfind hver
    obtain ⟨wn, wns, wv, wd, wch⟩ := w
    simp only [Wire.version] at hver
    subst hver
    simp [_obj_make_obj_compatible, hcalc, hfind]

/-- Witness for C1: the worked table `[("1.2","1.0"), ("1.4","1.2")]`,
with the outcomes the code produces: 1.3 (gap) backports the child to
1.0, 1.1 (below the first entry) deletes the field, and 1.5 (above the
last entry) computes 1.2 and leaves a child already at 1.2 unchanged. -/
theorem claim_C1_witness :
    obj_calculate_child_version exRels [1,3] "child" = .ok (some [1,0]) ∧
    obj_calculate_child_version exRels [1,1] "child" = .ok none ∧
    obj_calculate_child_version exRels [1,5] "child" = .ok (some [1,2]) ∧
    obj_calculate_child_version exRels [1,2] "child" = .ok (some [1,0]) ∧
    _obj_make_obj_compatible [] exRels (.vobj childO) "child"
        (.cons "child" (.pwire (objToWire childO)) .nil) [1,1] = .ok .nil ∧
    _obj_make_obj_compatible [] exRels (.vobj childO2) "child"
        (.cons "child" (.pwire (objToWire childO2)) .nil) [1,5] =
      .ok (.cons "child" (.pwire (objToWire childO2)) .nil) := by
  have h13 := claim_C1 exRels "child" [1,3] [([1,2],[1,0]), ([1,4],[1,2])] (by rfl) (by decide)
  have h11 := claim_C1 exRels "child" [1,1] [([1,2],[1,0]), ([1,4],[1,2])] (by rfl) (by decide)
  have h15 := claim_C1 exRels "child" [1,5] [([1,2],[1,0]), ([1,4],[1,2])] (by rfl) (by decide)
  have h12 := claim_C1 exRels "child" [1,2] [([1,2],[1,0]), ([1,4],[1,2])] (by rfl) (by decide)
  have e13 : obj_calculate_child_version exRels [1,3] "child" = .ok (some [1,0]) :=
    h13.2.2.1 [] [1,2] [1,0] [1,4] [1,2] [] (by rfl) (by decide) (by decide)
  have e11 := (h11.1 [1,2] [1,0] [([1,4],[1,2])] (by rfl) (by decide))
  have e15 : obj_calculate_child_version exRels [1,5] "child" = .ok (some [1,2]) :=
    h15.2.2.2.1 [([1,2],[1,0])] [1,4] [1,2] (by rfl) (by decide)
  have e12 : obj_calculate_child_version exRels [1,2] "child" = .ok (some [1,0]) :=
    h12.2.1 [] [1,0] [([1,4],[1,2])] (by rfl)
  refine ⟨e13, e11.1, e15, e12, ?_, ?_⟩
  · exact e11.2 [] (.vobj childO) (.cons "child" (.pwire (objToWire childO)) .nil)
  · have := h15.2.2.2.2 [] childO2 (.cons "child" (.pwire (objToWire childO2)) .nil)
      (objToWire childO2) [1,2] e15 (by decide) (by decide)
    rw [this]
    decide

/-- Counterexample to C1 as stated: with the worked table, the code
deletes the field at target 1.1 (it does not yield child version 1.0),
and the gap target 1.3 yields child version 1.0 (not 1.2). -/
theorem claim_C1_cex :
    obj_calculate_child_version exRels [1,1] "child" = .ok none ∧
    obj_calculate_child_version exRels [1,1] "child" ≠ .ok (some [1,0]) ∧
    obj_calculate_child_version exRels [1,3] "child" = .ok (some [1,0]) ∧
    obj_calculate_child_version exRels [1,3] "child" ≠ .ok (some [1,2]) := by
  decide

/-- The registry scan returns a class of the requested version whenever
one is registered, independent of the accumulator. -/
theorem classSearch_exact (objname : String) (objver : Ver) (allClasses : List ObjClass) :
    ∀ (l : List ObjClass) (acc : Option ObjClass),
      (∃ c ∈ l, c.version = objver) →
      ∃ c', classSearch objname objver allClasses l acc = .ok c' ∧ c'.version = objver := by
  intro l
  induction l with
  | nil =>
    intro acc h
    simp at h
  | cons c rest ih =>
    intro acc h
    by_cases hc : c.version = objver
    · exact ⟨c, by simp [classSearch, hc], hc⟩
    · obtain ⟨d, hd, hdv⟩ := h
      rcases List.mem_cons.mp hd with h1 | h2
      · subst h1
        exact absurd hdv hc
      · simp only [classSearch, if_neg hc]
        exact ih _ ⟨d, h2, hdv⟩

/-- Once a compatible match is remembered and no exact match follows,
the scan returns the remembered class. -/
theorem classSearch_acc (objname : String) (objver : Ver) (allClasses : List ObjClass) :
    ∀ (l : List ObjClass) (m : ObjClass), (∀ c ∈ l, c.version ≠ objver) →
      classSearch objname objver allClasses l (some m) = .ok m := by
  intro l
  induction l with
  | nil =>
    intro m _
    rfl
  | cons c rest ih =>
    intro m h
    have hc : ¬(c.version = objver) := h c (by simp)
    simp only [classSearch, if_neg hc]
    exact ih m (fun d hd => h d (by simp [hd]))

/-- With no exact match and no compatible class at all, the scan raises
`IncompatibleObjectVersion` carrying the version of the head (latest)
registered class. -/
theorem classSearch_none (objname : String) (objver : Ver) (allClasses : List ObjClass) :
    ∀ (l : List ObjClass),
      (∀ c ∈ l, c.version ≠ objver ∧ is_compatible objver c.version = false) →
      classSearch objname objver allClasses l none =
        (match allClasses.head? with
         | some c0 => .error (.incompatibleObjectVersion objname objver c0.version)
         | none => .error .indexError) := by
  intro l
  induction l with
  | nil =>
    intro _
    rfl
  | cons c rest ih =>
    intro h
    have hc : ¬(c.version = objver) := (h c (by simp)).1
    have hcc : is_compatible objver c.version = false := (h c (by simp)).2
    simp only [classSearch, if_neg hc, hcc, Bool.false_eq_true, if_false]
    exact ih (fun d hd => h d (by simp [hd]))

/-- With no exact match, the scan returns the first compatible class. -/
theorem classSearch_compat (objname : String) (objver : Ver) (allClasses : List ObjClass) :
    ∀ (pre : List ObjClass) (d : ObjClass) (post : List ObjClass),
      (∀ c ∈ pre ++ d :: post, c.version ≠ objver) →
      (∀ p ∈ pre, is_compatible objver p.version = false) →
      is_compatible objver d.version = true →
      classSearch objname objver allClasses (pre ++ d :: post) none = .ok d := by
  intro pre
  induction pre with
  | nil =>
    intro d post hne hp hd
    have hdne : ¬(d.version = objver) := hne d (by simp)
    simp only [List.nil_append, classSearch, if_neg hdne, hd, if_true]
    exact classSearch_acc _ _ _ post d (fun c hc => hne c (by simp [hc]))
  | cons p pre' ih =>
    intro d post hne hp hd
    have hpne : ¬(p.version = objver) := hne p (by simp)
    have hpc : is_compatible objver p.version = false := hp p (by simp)
    simp only [List.cons_append, classSearch, if_neg hpne, hpc, Bool.false_eq_true, if_false]
    exact ih d post (fun c hc => hne c (by simp [hc])) (fun c hc => hp c (by simp [hc])) hd

/-- C2: resolution of a (name, version) pair against the registry.  An
unregistered name fails with `UnsupportedObjectError`; an exactly
matching registered version is returned; otherwise the first (and, when
the registered list is sorted newest-first, the highest) registered
compatible class is returned, where compatible means same MAJOR and
registered version not older than requested; when the name is
registered but nothing is compatible, resolution fails with
`IncompatibleObjectVersion` carrying the requested version and the
head (latest) registered version as supported. -/
theorem claim_C2 (reg : Registry) (objname : String) (objver : Ver) :
    (alistFind reg objname = none →
      obj_class_from_name reg objname objver = .error (.unsupportedObjectError objname)) ∧
    (∀ classes, alistFind reg objname = some classes →
      ((∃ c ∈ classes, c.version = objver) →
        ∃ c', obj_class_from_name reg objname objver = .ok c' ∧ c'.version = objver) ∧
      ((∀ c ∈ classes, c.version ≠ objver) →
        ∀ pre d post, classes = pre ++ d :: post →
          (∀ p ∈ pre, is_compatible objver p.version = false) →
          is_compatible objver d.version = true →
          obj_class_from_name reg objname objver = .ok d ∧
          (List.Pairwise (fun a b => vlt b.version a.version = true) classes →
            ∀ c ∈ classes, is_compatible objver c.version = true →
              vlt d.version c.version = false)) ∧
      ((∀ c ∈ classes, c.version ≠ objver ∧ is_compatible objver c.version = false) →
        ∀ c0 rest, classes = c0 :: rest →
          obj_class_from_name reg objname objver =
            .error (.incompatibleObjectVersion objname objver c0.version) ∧
          (List.Pairwise (fun a b => vlt b.version a.version = true) classes →
            ∀ c ∈ classes, vlt c0.version c.version = false))) := by
  constructor
  · intro h
    simp [obj_class_from_name, h]
  · intro classes hfind
    refine ⟨?_, ?_, ?_⟩
    · intro hex
      have := classSearch_exact objname objver classes classes none hex
      simpa [obj_class_from_name, hfind] using this
    · intro hne pre d post hcl hp hd
      subst hcl
      constructor
      · have := classSearch_compat objname objver (pre ++ d :: post) pre d post hne hp hd
        simp [obj_class_from_name, hfind, this]
      · intro hsort c hc hcomp
        rcases List.mem_append.mp hc with h1 | h2
        · exact absurd hcomp (by simp [hp c h1])
        · rcases List.mem_cons.mp h2 with h3 | h4
          · subst h3
            exact vlt_irrefl _
          · have hdc : vlt c.version d.version = true :=
              (List.pairwise_cons.mp (List.pairwise_append.mp hsort).2.1).1 c h4
            exact vlt_asymm _ _ hdc
    · intro hno c0 rest hcl
      subst hcl
      constructor
      · have := classSearch_none objname objver (c0 :: rest) (c0 :: rest) hno
        simp only [List.head?_cons] at this
        simp [obj_class_from_name, hfind, this]
      · intro hsort c hc
        rcases List.mem_cons.mp hc with h1 | h2
        · subst h1
          exact vlt_irrefl _
        · have hdc : vlt c.version c0.version = true :=
            (List.pairwise_cons.mp hsort).1 c h2
          exact vlt_asymm _ _ hdc

/-- Witness for C2 at a registry holding `Foo` 1.3 and 1.0: an exact
request gets 1.0, a request for 1.2 resolves to 1.3 (highest
compatible), an unknown name is unsupported, and a request for 2.0
fails carrying supported 1.3. -/
theorem claim_C2_witness :
    (∃ c', obj_class_from_name fooReg "Foo" [1,0] = .ok c' ∧ c'.version = [1,0]) ∧
    obj_class_from_name fooReg "Foo" [1,2] = .ok (fooCls [1,3]) ∧
    obj_class_from_name fooReg "Bar" [1,0] = .error (.unsupportedObjectError "Bar") ∧
    obj_class_from_name fooReg "Foo" [2,0] =
      .error (.incompatibleObjectVersion "Foo" [2,0] [1,3]) := by
  refine ⟨?_, ?_, ?_, ?_⟩
  · exact ((claim_C2 fooReg "Foo" [1,0]).2 [fooCls [1,3], fooCls [1,0]] (by rfl)).1
      ⟨fooCls [1,0], by decide, by decide⟩
  · exact ((((claim_C2 fooReg "Foo" [1,2]).2 [fooCls [1,3], fooCls [1,0]] (by rfl)).2.1
      (by decide) [] (fooCls [1,3]) [fooCls [1,0]] (by rfl) (by decide) (by decide))).1
  · exact (claim_C2 fooReg "Bar" [1,0]).1 (by decide)
  · exact ((((claim_C2 fooReg "Foo" [2,0]).2 [fooCls [1,3], fooCls [1,0]] (by rfl)).2.2
      (by decide) (fooCls [1,3]) [fooCls [1,0]] (by rfl))).1

/-- C8: the deserializer catches only `IncompatibleObjectVersion`.  When
the version of the primitive has a PATCH component, the primitive is
reprocessed once with the version truncated to MAJOR.MINOR; otherwise,
when the name has registered classes, the backport authority is asked
to backport to the first (latest under the newest-first sort) supported
version and its result is returned instead of raising; successful
hydration passes through, and every other error propagates unchanged. -/
theorem claim_C8 (reg : Registry) (backport : Bool → Wire → Ver → Obj) (ctx : Bool)
    (w : Wire) :
    (∀ o, obj_from_primitive reg ctx w = .ok o →
      _process_object reg backport ctx w = .ok o) ∧
    (∀ a b c, obj_from_primitive reg ctx w = .error (.incompatibleObjectVersion a b c) →
      ((w.version.length = 3 →
         _process_object reg backport ctx w =
           _process_object reg backport ctx (w.setVersion (w.version.take 2))) ∧
       (w.version.length ≠ 3 →
         (∀ c0 rest, alistFind reg w.name = some (c0 :: rest) →
           _process_object reg backport ctx w = .ok (backport ctx w c0.version) ∧
           (List.Pairwise (fun x y => vlt y.version x.version = true) (c0 :: rest) →
             ∀ c' ∈ c0 :: rest, vlt c0.version c'.version = false)) ∧
         ((alistFind reg w.name = none ∨ alistFind reg w.name = some []) →
           _process_object reg backport ctx w =
             .error (.incompatibleObjectVersion a b c))))) ∧
    (∀ e, obj_from_primitive reg ctx w = .error e →
      (∀ a b c, e ≠ .incompatibleObjectVersion a b c) →
      _process_object reg backport ctx w = .error e) := by
  refine ⟨?_, ?_, ?_⟩
  · intro o ho
    rw [_process_object, ho]
  · intro a b c ho
    constructor
    · intro h3
      rw [_process_object, ho]
      simp [h3]
    · intro h3
      constructor
      · intro c0 rest hfind
        constructor
        · rw [_process_object, ho]
          simp [h3, hfind]
        · intro hsort c' hc'
          rcases List.mem_cons.mp hc' with h1 | h2
          · subst h1
            exact vlt_irrefl _
          · exact vlt_asymm _ _ ((List.pairwise_cons.mp hsort).1 c' h2)
      · intro hfind
        rw [_process_object, ho]
        rcases hfind with hf | hf
        · simp [h3, hf]
        · simp [h3, hf]
  · intro e he hne
    rw [_process_object, he]
    cases e with
    | incompatibleObjectVersion a b c => exact absurd rfl (hne a b c)
    | unsupportedObjectError t => rfl
    | orphanedObjectError m t => rfl
    | objectActionError a r => rfl
    | keyError k => rfl
    | indexError => rfl
    | valueError => rfl

/-- Witness for C8: hydrating `Foo` at 2.0.1 against a registry that
tops out at 1.3 first retries at 2.0 and then hands the truncated
primitive to the backport authority with target 1.3. -/
theorem claim_C8_witness :
    _process_object fooReg exBackport false (.mk "Foo" "nova" [2,0,1] .nil none) =
      .ok (.mk "BP" [1,3] false .nil []) := by
  have hver : obj_from_primitive fooReg false (.mk "Foo" "nova" [2,0,1] .nil none) =
      .error (.incompatibleObjectVersion "Foo" [2,0,1] [1,3]) := by decide
  have e1 := ((claim_C8 fooReg exBackport false (.mk "Foo" "nova" [2,0,1] .nil none)).2.1
      "Foo" [2,0,1] [1,3] hver).1 (by decide)
  have hver2 : obj_from_primitive fooReg false (.mk "Foo" "nova" [2,0] .nil none) =
      .error (.incompatibleObjectVersion "Foo" [2,0] [1,3]) := by decide
  have e2 := ((((claim_C8 fooReg exBackport false (.mk "Foo" "nova" [2,0] .nil none)).2.1
      "Foo" [2,0] [1,3] hver2).2 (by decide)).1 (fooCls [1,3]) [fooCls [1,0]] (by rfl)).1
  rw [e1]
  exact e2

/-- Membership in the propagated part of `obj_what_changed`: exactly the
set fields holding an entity with a non-empty change set. -/
theorem mem_wcPropagated : ∀ (d : VData) (f : String),
    f ∈ wcPropagated d ↔
      ∃ c, (f, Val.vobj c) ∈ d.entries ∧ obj_what_changed c ≠ []
  | .nil, f => by
    simp [wcPropagated, VData.entries]
  | .cons k v rest, f => by
    have ih := mem_wcPropagated rest
    cases v with
    | vobj c =>
      by_cases hc : obj_what_changed c = []
      · simp only [wcPropagated, List.mem_append, VData.entries, List.mem_cons, ih, hc,
          List.isEmpty_nil, if_true, List.not_mem_nil, false_or]
        constructor
        · rintro ⟨c', hm, hne⟩
          exact ⟨c', .inr hm, hne⟩
        · rintro ⟨c', h1 | h2, hne⟩
          · have hcc : Val.vobj c' = Val.vobj c := congrArg Prod.snd h1
            rw [Val.vobj.injEq] at hcc
            subst hcc
            exact absurd hc hne
          · exact ⟨c', h2, hne⟩
      · simp only [wcPropagated, List.mem_append, VData.entries, List.mem_cons, ih]
        constructor
        · rintro (h1 | h2)
          · simp [hc] at h1
            exact ⟨c, .inl (by simp [h1]), hc⟩
          · obtain ⟨c', hm, hne⟩ := h2
            exact ⟨c', .inr hm, hne⟩
        · rintro ⟨c', h1 | h2, hne⟩
          · have hf : f = k := congrArg Prod.fst h1
            left
            simp [hc, hf]
          · exact Or.inr ⟨c', h2, hne⟩
    | vnum n => simp [wcPropagated, VData.entries, ih]
    | vstr s => simp [wcPropagated, VData.entries, ih]
    | vnull => simp [wcPropagated, VData.entries, ih]
    | vlist os => simp [wcPropagated, VData.entries, ih]

/-- Membership in `obj_what_changed`: the own changed fields plus the
names of the set fields holding an entity with changes of its own. -/
theorem mem_obj_what_changed (o : Obj) (f : String) :
    f ∈ obj_what_changed o ↔
      f ∈ o.changed ∨ ∃ c, (f, Val.vobj c) ∈ o.data.entries ∧ obj_what_changed c ≠ [] := by
  cases o with
  | mk name ver ctx data ch =>
    simp only [obj_what_changed, Obj.changed, Obj.data]
    rw [List.mem_append]
    constructor
    · rintro (h | h)
      · exact .inl h
      · exact .inr ((mem_wcPropagated data f).mp (List.mem_filter.mp h).1)
    · rintro (h | h)
      · exact .inl h
      · by_cases hch : f ∈ ch
        · exact .inl hch
        · refine .inr (List.mem_filter.mpr ⟨(mem_wcPropagated data f).mpr h, ?_⟩)
          simp [hch]

/-- C5 (amended): `obj_what_changed` reports the own changed fields
unioned with the names of the currently-set entity-valued fields whose
own reported change set is non-empty — the nested change set marks the
owning field name, it is not itself merged into the result. -/
theorem claim_C5 (o : Obj) (f : String) :
    f ∈ obj_what_changed o ↔
      f ∈ o.changed ∨ ∃ c, (f, Val.vobj c) ∈ o.data.entries ∧ obj_what_changed c ≠ [] :=
  mem_obj_what_changed o f

/-- Counterexample to C5 as stated: an owner with no own changes whose
child entity has changed field `x` reports `{"child"}` (the field
name), not the union with the child change set `{"x"}` that the spec
sentence describes (`spec_what_changed` is the spec reading). -/
theorem claim_C5_cex :
    obj_what_changed c5owner = ["child"] ∧
    spec_what_changed c5owner = ["x"] ∧
    ("child" ∈ obj_what_changed c5owner ∧ "child" ∉ spec_what_changed c5owner) ∧
    ("x" ∈ spec_what_changed c5owner ∧ "x" ∉ obj_what_changed c5owner) := by
  decide

/-- The field loop of `obj_make_compatible` raises `ObjectActionError`
when the first set field is composed and has no relationship entry. -/
theorem omcData_head_error (reg : Registry) (rels : List (String × List (Ver × Ver)))
    (flds : List (String × FieldKind)) (k : String) (v : Val) (rest : VData)
    (prim : PData) (target : Ver) (kind : FieldKind)
    (hf : alistFind flds k = some kind) (hk : isComposed kind = true)
    (hr : alistFind rels k = none) :
    omcData reg rels flds (.cons k v rest) prim target =
      .error (.objectActionError "obj_make_compatible" ("No rule for " ++ k)) := by
  simp [omcData, hf, hk, hr]

/-- If the field loop of `obj_make_compatible` succeeds, every set field
that is declared composed has a relationship entry. -/
theorem omcData_ok_rules (reg : Registry) (rels : List (String × List (Ver × Ver)))
    (flds : List (String × FieldKind)) (target : Ver) :
    ∀ (d : VData) (prim prim' : PData),
      omcData reg rels flds d prim target = .ok prim' →
      ∀ k v, (k, v) ∈ d.entries → ∀ kind, alistFind flds k = some kind →
        isComposed kind = true → (alistFind rels k).isSome = true
  | .nil, prim, prim', _, k, v, hm, kind, hkind, hcomp => by
    simp [VData.entries] at hm
  | .cons k0 v0 rest, prim, prim', hok, k, v, hm, kind, hkind, hcomp => by
    have ih := omcData_ok_rules reg rels flds target rest
    rcases List.mem_cons.mp hm with h1 | h2
    · have hk : k = k0 := congrArg Prod.fst h1
      subst hk
      revert hok
      cases hf : alistFind flds k with
      | none => rw [hf] at hkind; exact absurd hkind (by simp)
      | some kind0 =>
        rw [hf] at hkind
        have : kind0 = kind := Option.some.inj hkind
        subst this
        intro hok
        simp only [omcData, hf, hcomp, if_true] at hok
        by_cases hr : (alistFind rels k).isNone
        · simp [hr] at hok
        · cases hrr : alistFind rels k with
          | none => rw [hrr] at hr; simp at hr
          | some l => rfl
    · revert hok
      simp only [omcData]
      cases hf : alistFind flds k0 with
      | none =>
        intro hok
        exact ih prim prim' hok k v h2 kind hkind hcomp
      | some kind0 =>
        by_cases hcomp0 : isComposed kind0 = true
        · simp only [hcomp0, if_true]
          cases hr : (alistFind rels k0).isNone with
          | true =>
            intro hok
            simp at hok
          | false =>
            simp only [Bool.false_eq_true, if_false]
            cases hmk : _obj_make_obj_compatible reg rels v0 k0 prim target with
            | error e =>
              intro hok
              simp at hok
            | ok prim'' =>
              intro hok
              exact ih prim'' prim' hok k v h2 kind hkind hcomp
        · simp only [hcomp0, if_false]
          intro hok
          exact ih prim prim' hok k v h2 kind hkind hcomp

/-- With no set composed fields the field loop of `obj_make_compatible`
returns the primitive unchanged. -/
theorem omcData_no_composed (reg : Registry) (rels : List (String × List (Ver × Ver)))
    (flds : List (String × FieldKind)) (target : Ver) :
    ∀ (d : VData) (prim : PData),
      (∀ k v, (k, v) ∈ d.entries → ∀ kind, alistFind flds k = some kind →
        isComposed kind = false) →
      omcData reg rels flds d prim target = .ok prim
  | .nil, prim, _ => rfl
  | .cons k0 v0 rest, prim, h => by
    have ih := omcData_no_composed reg rels flds target rest
    simp only [omcData]
    cases hf : alistFind flds k0 with
    | none => exact ih prim (fun k v hm => h k v (List.mem_cons_of_mem _ hm))
    | some kind0 =>
      have : isComposed kind0 = false := h k0 v0 (by simp [VData.entries]) kind0 hf
      simp only [this, Bool.false_eq_true, if_false]
      exact ih prim (fun k v hm => h k v (List.mem_cons_of_mem _ hm))

/-- C9: backporting an entity whose first set field is composed and has
no relationship entry raises `ObjectActionError` (reason "No rule for
<field>"); a successful backport implies every set composed field has an
entry (nothing is silently skipped); and an entity with no set composed
fields backports without error and without touching the primitive. -/
theorem claim_C9 (reg : Registry) (cls : ObjClass) (o : Obj) (prim : PData) (target : Ver) :
    (∀ k v rest kind, o.data = .cons k v rest →
      alistFind cls.fields k = some kind → isComposed kind = true →
      alistFind cls.relationships k = none →
      obj_make_compatible reg cls o prim target =
        .error (.objectActionError "obj_make_compatible" ("No rule for " ++ k))) ∧
    (∀ prim', obj_make_compatible reg cls o prim target = .ok prim' →
      ∀ k v, (k, v) ∈ o.data.entries → ∀ kind, alistFind cls.fields k = some kind →
        isComposed kind = true → (alistFind cls.relationships k).isSome = true) ∧
    ((∀ k v, (k, v) ∈ o.data.entries → ∀ kind, alistFind cls.fields k = some kind →
        isComposed kind = false) →
      obj_make_compatible reg cls o prim target = .ok prim) := by
  cases o with
  | mk name ver hctx data ch =>
    refine ⟨?_, ?_, ?_⟩
    · intro k v rest kind hdata hf hk hr
      simp only [Obj.data] at hdata
      subst hdata
      simp only [obj_make_compatible]
      exact omcData_head_error reg cls.relationships cls.fields k v rest prim target
        kind hf hk hr
    · intro prim' hok
      simp only [obj_make_compatible] at hok
      exact omcData_ok_rules reg cls.relationships cls.fields target data prim prim' hok
    · intro h
      simp only [obj_make_compatible]
      exact omcData_no_composed reg cls.relationships cls.fields target data prim h

/-- Witness for C9: a class with composed field `child` and an empty
relationship table errors on an instance with `child` set, and succeeds
without touching the primitive on an instance with nothing set. -/
theorem claim_C9_witness :
    obj_make_compatible [] badCls ownerD .nil [1,0] =
      .error (.objectActionError "obj_make_compatible" ("No rule for " ++ "child")) ∧
    obj_make_compatible [] badCls (.mk "Owner" [1,0] true .nil []) .nil [1,0] = .ok .nil := by
  constructor
  · exact (claim_C9 [] badCls ownerD .nil [1,0]).1 "child" (.vobj childO) .nil .objectField
      (by rfl) (by rfl) (by rfl) (by rfl)
  · exact (claim_C9 [] badCls (.mk "Owner" [1,0] true .nil []) .nil [1,0]).2.2
      (by intro k v hm; simp [VData.entries] at hm)

/-- The reported change set of an instance with an empty own changed
set is exactly the propagated part. -/
theorem wc_mk_nil (n : String) (ver : Ver) (hctx : Bool) (d : VData) :
    obj_what_changed (.mk n ver hctx d []) = wcPropagated d := by
  simp [obj_what_changed]

/-- Unfolding of `wcPropagated` at a cons cell. -/
theorem wcPropagated_cons (k : String) (v : Val) (rest : VData) :
    wcPropagated (.cons k v rest) =
      (match v with
       | .vobj c => if (obj_what_changed c).isEmpty then [] else [k]
       | _ => []) ++ wcPropagated rest := by
  cases v <;> simp [wcPropagated]

/-- Unfolding of `resetData` at a cons cell. -/
theorem resetData_cons (CK : List String) (fields : Option (List String)) (k : String)
    (v : Val) (rest : VData) :
    resetData CK fields (.cons k v rest) =
      .cons k (if CK.contains k && fieldsPass fields k then resetVal v else v)
        (resetData CK fields rest) := by
  rw [resetData]

/-- Propagated changes of the tail stay propagated after a cons. -/
theorem mem_wcPropagated_tail (k : String) (v : Val) (rest : VData) (k' : String)
    (hk' : k' ∈ wcPropagated rest) : k' ∈ wcPropagated (.cons k v rest) := by
  rw [wcPropagated_cons]
  exact List.mem_append_right _ hk'

/-- A set entity field with changes is itself a propagated change. -/
theorem mem_wcPropagated_head (k : String) (c : Obj) (rest : VData)
    (hne : obj_what_changed c ≠ []) : k ∈ wcPropagated (.cons k (.vobj c) rest) := by
  rw [wcPropagated_cons]
  apply List.mem_append_left
  simp [hne]

mutual
/-- A full recursive reset leaves an entity with an empty reported
change set, all the way down. -/
theorem wc_reset_obj : ∀ (c : Obj), obj_what_changed (obj_reset_changes c none true) = []
  | .mk n ver hctx data ch => by
    have hstep : obj_reset_changes (.mk n ver hctx data ch) none true =
        .mk n ver hctx
          (resetData (obj_what_changed (.mk n ver hctx data ch)) none data) [] := by
      simp [obj_reset_changes, fieldsTruthy]
    rw [hstep, wc_mk_nil]
    apply wcprop_resetData
    intro k hk
    simp only [obj_what_changed, List.mem_append]
    by_cases hch : k ∈ ch
    · exact .inl hch
    · exact .inr (List.mem_filter.mpr ⟨hk, by simp [hch]⟩)
termination_by c => sizeOf c
/-- Resetting a data map against a changed-key set that covers every
field holding an entity with changes leaves no propagated changes. -/
theorem wcprop_resetData : ∀ (d : VData) (CK : List String),
    (∀ k, k ∈ wcPropagated d → k ∈ CK) →
    wcPropagated (resetData CK none d) = []
  | .nil, _, _ => rfl
  | .cons k v rest, CK, h => by
    have hrest : wcPropagated (resetData CK none rest) = [] :=
      wcprop_resetData rest CK (fun k' hk' => h k' (mem_wcPropagated_tail k v rest k' hk'))
    rw [resetData_cons, wcPropagated_cons, hrest, List.append_nil]
    by_cases hck : k ∈ CK
    · have hhit : (CK.contains k && fieldsPass none k) = true := by
        simp [hck, fieldsPass, fieldsTruthy]
      rw [if_pos hhit]
      cases v with
      | vobj c =>
        have hwc := wc_reset_obj c
        simp [resetVal, hwc]
      | vnum n => simp [resetVal]
      | vstr str => simp [resetVal]
      | vnull => simp [resetVal]
      | vlist os => simp [resetVal]
    · have hhit : ¬ ((CK.contains k && fieldsPass none k) = true) := by
        simp [hck, fieldsPass, fieldsTruthy]
      rw [if_neg hhit]
      cases v with
      | vobj c =>
        have hkc : obj_what_changed c = [] := by
          by_contra hne
          exact hck (h k (mem_wcPropagated_head k c rest hne))
        simp [hkc]
      | vnum n => simp
      | vstr str => simp
      | vnull => simp
      | vlist os => simp
termination_by d _ _ => sizeOf d
end

/-- A recursive reset rewrites every entity-valued entry that passes the
filter to one with an empty change set (fields whose entity had no
changes are untouched and already report none). -/
theorem resetData_entries : ∀ (d : VData) (CK : List String)
    (fields : Option (List String)),
    (∀ k c, (k, Val.vobj c) ∈ d.entries → obj_what_changed c ≠ [] → k ∈ CK) →
    ∀ k c, (k, Val.vobj c) ∈ d.entries → fieldsPass fields k = true →
      ∃ c', (k, Val.vobj c') ∈ (resetData CK fields d).entries ∧ obj_what_changed c' = []
  | .nil, CK, fields, _, k, c, hm, _ => by
    simp [VData.entries] at hm
  | .cons k0 v0 rest, CK, fields, h, k, c, hm, hpass => by
    rcases List.mem_cons.mp hm with h1 | h2
    · have hk : k = k0 := congrArg Prod.fst h1
      have hv : Val.vobj c = v0 := congrArg Prod.snd h1
      subst hk
      subst hv
      by_cases hck : k ∈ CK
      · refine ⟨obj_reset_changes c none true, ?_, wc_reset_obj c⟩
        simp [resetData, VData.entries, hck, hpass, resetVal]
      · have hkc : obj_what_changed c = [] := by
          by_contra hne
          exact hck (h k c (by simp [VData.entries]) hne)
        refine ⟨c, ?_, hkc⟩
        simp [resetData, VData.entries, hck]
    · have hrest := resetData_entries rest CK fields
        (fun k' c' hm' hne' => h k' c' (List.mem_cons_of_mem _ hm') hne') k c h2 hpass
      obtain ⟨c', hm', hc'⟩ := hrest
      refine ⟨c', ?_, hc'⟩
      simp only [resetData, VData.entries, List.mem_cons]
      exact .inr hm'

/-- C6 (amended): with no `fields` argument (or an empty list, which
Python treats the same) the changed set is cleared entirely and the
data is untouched; with a non-empty `fields` list only those names are
removed; with `recursive` every set entity-valued field passing the
top-level filter ends up with an empty reported change set, the nested
reset being full regardless of the filter. -/
theorem claim_C6 (o : Obj) :
    ((obj_reset_changes o none false).changed = [] ∧
     (obj_reset_changes o none false).data = o.data) ∧
    (∀ l, l ≠ [] →
      (obj_reset_changes o (some l) false).changed =
        o.changed.filter (fun f => !(l.contains f)) ∧
      (obj_reset_changes o (some l) false).data = o.data) ∧
    (∀ fields,
      (obj_reset_changes o fields true).changed =
        (if fieldsTruthy fields then
           o.changed.filter (fun f => !((fields.getD []).contains f))
         else []) ∧
      (∀ k c, (k, Val.vobj c) ∈ o.data.entries → fieldsPass fields k = true →
        ∃ c', (k, Val.vobj c') ∈ (obj_reset_changes o fields true).data.entries ∧
          obj_what_changed c' = [])) := by
  cases o with
  | mk n ver hctx data ch =>
    refine ⟨⟨?_, ?_⟩, ?_, ?_⟩
    · simp [obj_reset_changes, fieldsTruthy, Obj.changed]
    · simp [obj_reset_changes, fieldsTruthy, Obj.data]
    · intro l hl
      cases l with
      | nil => exact absurd rfl hl
      | cons x xs =>
        constructor
        · simp [obj_reset_changes, fieldsTruthy, Obj.changed]
        · simp [obj_reset_changes, fieldsTruthy, Obj.data]
    · intro fields
      constructor
      · cases hft : fieldsTruthy fields with
        | true => simp [obj_reset_changes, hft, Obj.changed]
        | false => simp [obj_reset_changes, hft, Obj.changed]
      · intro k c hm hpass
        have h := resetData_entries data (obj_what_changed (.mk n ver hctx data ch)) fields
          (fun k' c' hm' hne' =>
            (mem_obj_what_changed (.mk n ver hctx data ch) k').mpr
              (.inr ⟨c', by simpa [Obj.data] using hm', hne'⟩))
          k c (by simpa [Obj.data] using hm) hpass
        simpa [obj_reset_changes, Obj.data] using h

/-- Witness for C6: a plain reset clears the changed set; a filtered
reset removes only the given names; a recursive reset empties the
change set of a nested set entity. -/
theorem claim_C6_witness :
    (obj_reset_changes c5owner none false).changed = [] ∧
    (obj_reset_changes (.mk "O" [1,0] false .nil ["a", "b"]) (some ["a"]) false).changed =
      ["b"] ∧
    (∃ c', ("child", Val.vobj c') ∈ (obj_reset_changes c5owner none true).data.entries ∧
      obj_what_changed c' = []) := by
  refine ⟨(claim_C6 c5owner).1.1, ?_, ?_⟩
  · have := ((claim_C6 (.mk "O" [1,0] false .nil ["a", "b"])).2.1 ["a"] (by decide)).1
    rw [this]
    decide
  · exact ((claim_C6 c5owner).2.2 none).2 "child" (.mk "C" [1,0] false .nil ["x"])
      (by decide) (by decide)

/-- Counterexample to C6 as stated: an explicitly passed empty `fields`
list does not remove nothing — Python truthiness routes it to the
clear-all branch, so a changed field `a` is dropped. -/
theorem claim_C6_cex :
    (obj_reset_changes (.mk "O" [1,0] false .nil ["a"]) (some []) false).changed = [] ∧
    (obj_reset_changes (.mk "O" [1,0] false .nil ["a"]) (some []) false).changed ≠ ["a"] := by
  decide

/-- Unfolding of `dataToPrim` at nil. -/
theorem dataToPrim_nil : dataToPrim .nil = .nil := by
  rw [dataToPrim]

/-- Unfolding of `dataToPrim` at a cons cell. -/
theorem dataToPrim_cons (k : String) (v : Val) (rest : VData) :
    dataToPrim (.cons k v rest) = .cons k (valToPrim v) (dataToPrim rest) := by
  rw [dataToPrim]

/-- Unfolding of `objToWire`. -/
theorem objToWire_mk (n : String) (ver : Ver) (hctx : Bool) (d : VData)
    (ch : List String) :
    objToWire (.mk n ver hctx d ch) =
      .mk n "nova" ver (dataToPrim d) (changesOpt (.mk n ver hctx d ch)) := by
  rw [objToWire]

/-- Unfolding of `obj_from_primitive` at a wire constructor. -/
theorem obj_from_primitive_mk (reg : Registry) (ctx : Bool) (wname wns : String)
    (wver : Ver) (wdata : PData) (wchanges : Option (List String)) :
    obj_from_primitive reg ctx (.mk wname wns wver wdata wchanges) =
      (if wns ≠ "nova" then .error (.unsupportedObjectError (wns ++ "." ++ wname))
       else
        match obj_class_from_name reg wname wver with
        | .error e => .error e
        | .ok cls =>
          match hydrateData reg ctx cls.fields wdata with
          | .error e => .error e
          | .ok data' =>
            .ok (.mk cls.name wver ctx data'
              ((wchanges.getD []).filter (fun x => (alistFind cls.fields x).isSome)))) := by
  rw [obj_from_primitive]

/-- Unfolding of `hydrateData` at nil. -/
theorem hydrateData_nil (reg : Registry) (ctx : Bool)
    (flds : List (String × FieldKind)) : hydrateData reg ctx flds .nil = .ok .nil := by
  rw [hydrateData]

/-- Unfolding of `hydrateData` at a cons cell. -/
theorem hydrateData_cons (reg : Registry) (ctx : Bool)
    (flds : List (String × FieldKind)) (k : String) (p : Prim) (rest : PData) :
    hydrateData reg ctx flds (.cons k p rest) =
      (match alistFind flds k with
       | none => hydrateData reg ctx flds rest
       | some kind =>
         match fieldFromPrim reg ctx kind p with
         | .error e => .error e
         | .ok v =>
           match hydrateData reg ctx flds rest with
           | .error e => .error e
           | .ok vs => .ok (.cons k v vs)) := by
  rw [hydrateData]

/-- Unfolding of `scrub`. -/
theorem scrub_mk (n : String) (ver : Ver) (hctx : Bool) (d : VData) (ch : List String) :
    scrub (.mk n ver hctx d ch) = .mk n ver false (scrubData d) [] := by
  rw [scrub]

/-- Unfolding of `scrubData` at nil. -/
theorem scrubData_nil : scrubData .nil = .nil := by
  rw [scrubData]

/-- Unfolding of `scrubData` at a cons cell. -/
theorem scrubData_cons (k : String) (v : Val) (rest : VData) :
    scrubData (.cons k v rest) = .cons k (scrubVal v) (scrubData rest) := by
  rw [scrubData]

/-- Unfolding of `wfObj`. -/
theorem wfObj_mk (reg : Registry) (n : String) (ver : Ver) (hctx : Bool) (d : VData)
    (ch : List String) :
    wfObj reg (.mk n ver hctx d ch) =
      (match obj_class_from_name reg n ver with
       | .ok cls => cls.name == n && wfData reg cls.fields d
       | .error _ => false) := by
  rw [wfObj]

/-- Unfolding of `wfData` at a cons cell. -/
theorem wfData_cons (reg : Registry) (flds : List (String × FieldKind)) (k : String)
    (v : Val) (rest : VData) :
    wfData reg flds (.cons k v rest) =
      ((match alistFind flds k with
        | some kind => kindOK kind v && wfVal reg v
        | none => false) && wfData reg flds rest) := by
  rw [wfData]

mutual
/-- Hydrating the serialized form of a well-formed instance succeeds and
returns the instance up to changed sets and contexts. -/
theorem rt_obj (reg : Registry) (ctx : Bool) : ∀ (o : Obj), wfObj reg o = true →
    (obj_from_primitive reg ctx (objToWire o)).map scrub = .ok (scrub o)
  | .mk name ver hctx data ch, h => by
    rw [wfObj_mk] at h
    cases hcls : obj_class_from_name reg name ver with
    | error e =>
      rw [hcls] at h
      exact absurd h (by simp)
    | ok cls =>
      rw [hcls] at h
      rw [Bool.and_eq_true] at h
      obtain ⟨h1, h2⟩ := h
      have hname : cls.name = name := by simpa using h1
      rw [objToWire_mk, obj_from_primitive_mk]
      rw [if_neg (by simp)]
      have hd := rt_data reg ctx cls.fields data h2
      simp only [hcls]
      cases hdd : hydrateData reg ctx cls.fields (dataToPrim data) with
      | error e =>
        rw [hdd] at hd
        simp [Except.map] at hd
      | ok d' =>
        rw [hdd] at hd
        simp only [Except.map, Except.ok.injEq] at hd
        simp only [Except.map, Except.ok.injEq]
        rw [scrub_mk, scrub_mk, hname, hd]
termination_by o _ => sizeOf o
/-- Hydrating the serialized set fields of a well-formed data map gives
back the data map up to changed sets and contexts. -/
theorem rt_data (reg : Registry) (ctx : Bool) (flds : List (String × FieldKind)) :
    ∀ (d : VData), wfData reg flds d = true →
    (hydrateData reg ctx flds (dataToPrim d)).map scrubData = .ok (scrubData d)
  | .nil, _ => by
    rw [dataToPrim_nil, hydrateData_nil]
    simp [Except.map, scrubData_nil]
  | .cons k v rest, h => by
    rw [wfData_cons, Bool.and_eq_true] at h
    obtain ⟨h1, hrest⟩ := h
    cases hf : alistFind flds k with
    | none =>
      rw [hf] at h1
      exact absurd h1 (by simp)
    | some kind =>
      rw [hf] at h1
      rw [Bool.and_eq_true] at h1
      obtain ⟨hkv, hwv⟩ := h1
      rw [dataToPrim_cons, hydrateData_cons]
      simp only [hf]
      have hv := rt_val reg ctx kind v hkv hwv
      cases hfv : fieldFromPrim reg ctx kind (valToPrim v) with
      | error e =>
        rw [hfv] at hv
        simp [Except.map] at hv
      | ok v' =>
        rw [hfv] at hv
        simp only [Except.map, Except.ok.injEq] at hv
        have hd := rt_data reg ctx flds rest hrest
        cases hdd : hydrateData reg ctx flds (dataToPrim rest) with
        | error e =>
          rw [hdd] at hd
          simp [Except.map] at hd
        | ok vs =>
          rw [hdd] at hd
          simp only [Except.map, Except.ok.injEq] at hd
          simp only [Except.map, Except.ok.injEq]
          rw [scrubData_cons, scrubData_cons, hv, hd]
termination_by d _ => sizeOf d
/-- Hydrating the serialized form of a well-typed field value gives back
the value up to changed sets and contexts. -/
theorem rt_val (reg : Registry) (ctx : Bool) : ∀ (kind : FieldKind) (v : Val),
    kindOK kind v = true → wfVal reg v = true →
    (fieldFromPrim reg ctx kind (valToPrim v)).map scrubVal = .ok (scrubVal v)
  | kind, .vnull, _, _ => by
    simp [valToPrim, fieldFromPrim, Except.map]
  | kind, .vnum n, hkv, _ => by
    cases kind with
    | scalar => simp [valToPrim, fieldFromPrim, Except.map]
    | objectField => simp [kindOK] at hkv
    | listOfObjectsField => simp [kindOK] at hkv
  | kind, .vstr s, hkv, _ => by
    cases kind with
    | scalar => simp [valToPrim, fieldFromPrim, Except.map]
    | objectField => simp [kindOK] at hkv
    | listOfObjectsField => simp [kindOK] at hkv
  | kind, .vobj c, hkv, hwv => by
    cases kind with
    | scalar => simp [kindOK] at hkv
    | objectField =>
      rw [wfVal] at hwv
      have hc := rt_obj reg ctx c hwv
      simp only [valToPrim, fieldFromPrim]
      cases hfo : obj_from_primitive reg ctx (objToWire c) with
      | error e =>
        rw [hfo] at hc
        simp [Except.map] at hc
      | ok c' =>
        rw [hfo] at hc
        simp only [Except.map, Except.ok.injEq] at hc
        simp [Except.map, scrubVal, hc]
    | listOfObjectsField => simp [kindOK] at hkv
  | kind, .vlist os, hkv, hwv => by
    cases kind with
    | scalar => simp [kindOK] at hkv
    | objectField => simp [kindOK] at hkv
    | listOfObjectsField =>
      rw [wfVal] at hwv
      have hos := rt_wires reg ctx os hwv
      simp only [valToPrim, fieldFromPrim]
      cases hws : hydrateWires reg ctx (objsToWires os) with
      | error e =>
        rw [hws] at hos
        simp [Except.map] at hos
      | ok os' =>
        rw [hws] at hos
        simp only [Except.map, Except.ok.injEq] at hos
        simp [Except.map, scrubVal, hos]
termination_by kind v _ _ => sizeOf v
/-- Hydrating the serialized elements of a well-formed entity list gives
back the list up to changed sets and contexts. -/
theorem rt_wires (reg : Registry) (ctx : Bool) : ∀ (os : ObjList),
    wfObjs reg os = true →
    (hydrateWires reg ctx (objsToWires os)).map scrubList = .ok (scrubList os)
  | .nil, _ => by
    rw [objsToWires, hydrateWires]
    simp [Except.map, scrubList]
  | .cons c rest, h => by
    rw [wfObjs, Bool.and_eq_true] at h
    obtain ⟨hc, hrest⟩ := h
    have h1 := rt_obj reg ctx c hc
    have h2 := rt_wires reg ctx rest hrest
    rw [objsToWires, hydrateWires]
    cases hfo : obj_from_primitive reg ctx (objToWire c) with
    | error e =>
      rw [hfo] at h1
      simp [Except.map] at h1
    | ok c' =>
      rw [hfo] at h1
      simp only [Except.map, Except.ok.injEq] at h1
      cases hws : hydrateWires reg ctx (objsToWires rest) with
      | error e =>
        rw [hws] at h2
        simp [Except.map] at h2
      | ok os' =>
        rw [hws] at h2
        simp only [Except.map, Except.ok.injEq] at h2
        simp only [Except.map, Except.ok.injEq]
        rw [scrubList, scrubList, h1, h2]
termination_by os _ => sizeOf os
end

/-- C3: serializing a well-formed entity with no target version and
hydrating the resulting wire primitive succeeds and yields an entity
with the same name, version and set-field values, compared recursively
while ignoring the changed sets (which hydration recomputes from the
wire changes list) and the bound contexts (which hydration replaces by
the supplied context).  `scrub` normalizes exactly those two parts. -/
theorem claim_C3 (reg : Registry) (ctx : Bool) (cls : ObjClass) (o : Obj)
    (h : wfObj reg o = true) :
    obj_to_primitive reg cls o none = .ok (objToWire o) ∧
    (obj_from_primitive reg ctx (objToWire o)).map scrub = .ok (scrub o) := by
  constructor
  · cases o with
    | mk n ver hctx data ch =>
      rw [objToWire_mk]
      simp [obj_to_primitive, Obj.name, Obj.version, Obj.data]
  · exact rt_obj reg ctx o h

/-- Witness for C3: the example owner entity, with a scalar field, a
nested child entity and a child list, survives the round trip. -/
theorem claim_C3_witness :
    obj_to_primitive exReg ownerCls ownerO none = .ok (objToWire ownerO) ∧
    (obj_from_primitive exReg false (objToWire ownerO)).map scrub = .ok (scrub ownerO) :=
  claim_C3 exReg false ownerCls ownerO (by decide)

/-- Deleting a key from a data map only removes keys. -/
theorem keys_erase : ∀ (p : PData) (f : String) (x : String),
    x ∈ (p.erase f).keys → x ∈ p.keys
  | .nil, f, x => by
    rw [PData.erase]
    exact id
  | .cons k q rest, f, x => by
    rw [PData.erase]
    by_cases hk : k = f
    · rw [if_pos hk]
      intro hx
      rw [PData.keys]
      exact List.mem_cons_of_mem _ (keys_erase rest f x hx)
    · rw [if_neg hk, PData.keys, PData.keys]
      intro hx
      rcases List.mem_cons.mp hx with h1 | h2
      · exact List.mem_cons.mpr (.inl h1)
      · exact List.mem_cons.mpr (.inr (keys_erase rest f x h2))

/-- Assigning a value to a key leaves the key set unchanged. -/
theorem keys_setVal : ∀ (p : PData) (f : String) (q : Prim),
    (p.setVal f q).keys = p.keys
  | .nil, f, q => by
    rw [PData.setVal]
  | .cons k p0 rest, f, q => by
    rw [PData.setVal, PData.keys, PData.keys, keys_setVal rest f q]

/-- Serialization keeps exactly the keys of the set fields. -/
theorem keys_dataToPrim : ∀ (d : VData), (dataToPrim d).keys = d.keys
  | .nil => by
    rw [dataToPrim_nil, PData.keys, VData.keys]
  | .cons k v rest => by
    rw [dataToPrim_cons, PData.keys, VData.keys, keys_dataToPrim rest]

/-- Backporting one composed field never adds keys to the primitive. -/
theorem omobj_keys (reg : Registry) (rels : List (String × List (Ver × Ver))) (v : Val)
    (field : String) (prim : PData) (target : Ver) (prim' : PData)
    (hok : _obj_make_obj_compatible reg rels v field prim target = .ok prim') :
    ∀ x, x ∈ prim'.keys → x ∈ prim.keys := by
  rw [_obj_make_obj_compatible] at hok
  cases hcalc : obj_calculate_child_version rels target field with
  | error e =>
    rw [hcalc] at hok
    simp at hok
  | ok cv =>
    rw [hcalc] at hok
    cases cv with
    | none =>
      simp only [Except.ok.injEq] at hok
      subst hok
      exact keys_erase prim field
    | some tv =>
      cases v with
      | vnum n =>
        simp only [Except.ok.injEq] at hok
        subst hok
        exact fun x => id
      | vstr s =>
        simp only [Except.ok.injEq] at hok
        subst hok
        exact fun x => id
      | vnull =>
        simp only [Except.ok.injEq] at hok
        subst hok
        exact fun x => id
      | vobj c =>
        cases hfind : prim.find field with
        | none =>
          simp [hfind] at hok
        | some p =>
          cases p with
          | pwire w =>
            cases w with
            | mk cwname cwns cwver cwdata cwch =>
              simp only [hfind] at hok
              by_cases hne : tv ≠ cwver
              · rw [if_pos hne] at hok
                cases hlc : latestClass reg c.name with
                | none => simp [hlc] at hok
                | some ccls =>
                  simp only [hlc] at hok
                  cases homc : obj_make_compatible reg ccls c cwdata tv with
                  | error e => simp [homc] at hok
                  | ok cwdata' =>
                    simp only [homc, Except.ok.injEq] at hok
                    subst hok
                    intro x hx
                    rw [keys_setVal] at hx
                    exact hx
              · rw [if_neg hne] at hok
                simp only [Except.ok.injEq] at hok
                subst hok
                intro x hx
                rw [keys_setVal] at hx
                exact hx
          | pnum n => simp [hfind] at hok
          | pstr s => simp [hfind] at hok
          | pnull => simp [hfind] at hok
          | pwires ws => simp [hfind] at hok
      | vlist os =>
        cases hfind : prim.find field with
        | none =>
          simp [hfind] at hok
        | some p =>
          cases p with
          | pwires ws =>
            simp only [hfind] at hok
            cases hbw : backportWires reg tv os ws with
            | error e => simp [hbw] at hok
            | ok ws' =>
              simp only [hbw, Except.ok.injEq] at hok
              subst hok
              intro x hx
              rw [keys_setVal] at hx
              exact hx
          | pnum n => simp [hfind] at hok
          | pstr s => simp [hfind] at hok
          | pnull => simp [hfind] at hok
          | pwire w => simp [hfind] at hok

/-- The field loop of `obj_make_compatible` never adds keys to the
primitive: it only deletes or rewrites existing entries. -/
theorem omcData_keys (reg : Registry) (rels : List (String × List (Ver × Ver)))
    (flds : List (String × FieldKind)) (target : Ver) :
    ∀ (d : VData) (prim prim' : PData),
      omcData reg rels flds d prim target = .ok prim' →
      ∀ x, x ∈ prim'.keys → x ∈ prim.keys
  | .nil, prim, prim', hok => by
    rw [omcData] at hok
    simp only [Except.ok.injEq] at hok
    subst hok
    exact fun x => id
  | .cons k v rest, prim, prim', hok => by
    rw [omcData] at hok
    cases hf : alistFind flds k with
    | none =>
      simp only [hf] at hok
      exact omcData_keys reg rels flds target rest prim prim' hok
    | some kind =>
      simp only [hf] at hok
      by_cases hcomp : isComposed kind = true
      · rw [if_pos hcomp] at hok
        by_cases hr : (alistFind rels k).isNone = true
        · rw [if_pos hr] at hok
          simp at hok
        · rw [if_neg hr] at hok
          cases hmk : _obj_make_obj_compatible reg rels v k prim target with
          | error e => simp [hmk] at hok
          | ok prim'' =>
            simp only [hmk] at hok
            intro x hx
            exact omobj_keys reg rels v k prim target prim'' hmk x
              (omcData_keys reg rels flds target rest prim'' prim' hok x hx)
      · rw [if_neg hcomp] at hok
        exact omcData_keys reg rels flds target rest prim prim' hok

/-- C7 (amended): with no target version the wire primitive carries
namespace "nova", the entity name and version, a data map whose keys are
exactly the set fields, and a changes entry present iff the reported
change set is non-empty.  With a target version the stamped version is
the target and the data keys are only a subset of the set fields: the
compatibility engine may delete composed fields on backport, so "exactly
the fields that were set" does not hold in general. -/
theorem claim_C7 (reg : Registry) (cls : ObjClass) (o : Obj) :
    (obj_to_primitive reg cls o none =
       .ok (.mk o.name "nova" o.version (dataToPrim o.data) (changesOpt o)) ∧
     (dataToPrim o.data).keys = o.data.keys ∧
     (changesOpt o = none ↔ obj_what_changed o = [])) ∧
    (∀ t w', obj_to_primitive reg cls o (some t) = .ok w' →
      w'.name = o.name ∧ w'.ns = "nova" ∧ w'.version = t ∧
      (∀ x, x ∈ w'.data.keys → x ∈ o.data.keys) ∧
      (w'.changes = none ↔ obj_what_changed o = [])) := by
  constructor
  · refine ⟨by simp [obj_to_primitive], keys_dataToPrim o.data, ?_⟩
    simp [changesOpt]
  · intro t w' hok
    simp only [obj_to_primitive] at hok
    cases homc : obj_make_compatible reg cls o (dataToPrim o.data) t with
    | error e => simp [homc] at hok
    | ok p' =>
      simp only [homc, Except.ok.injEq] at hok
      subst hok
      refine ⟨rfl, rfl, rfl, ?_, ?_⟩
      · intro x hx
        rw [← keys_dataToPrim o.data]
        revert homc
        cases o with
        | mk n ver hctx data ch =>
          rw [obj_make_compatible]
          intro homc
          exact omcData_keys reg cls.relationships cls.fields t data
            (dataToPrim (Obj.data (.mk n ver hctx data ch))) p' homc x hx
      · simp [Wire.changes, changesOpt]

/-- Witness for C7: the example owner serialized with no target carries
exactly its set fields; serialized at target 1.0 under `ownerClsD`
the child field is dropped but everything else of the contract holds. -/
theorem claim_C7_witness :
    obj_to_primitive exReg ownerCls ownerO none =
      .ok (.mk (Obj.name ownerO) "nova" (Obj.version ownerO)
        (dataToPrim (Obj.data ownerO)) (changesOpt ownerO)) ∧
    (Wire.mk "Owner" "nova" [1,0] PData.nil (some ["child"])).version = [1,0] ∧
    (∀ x, x ∈ (Wire.mk "Owner" "nova" [1,0] PData.nil (some ["child"])).data.keys →
      x ∈ (Obj.data ownerD).keys) := by
  have h2 := (claim_C7 exReg ownerClsD ownerD).2 [1,0]
    (.mk "Owner" "nova" [1,0] .nil (some ["child"])) (by decide)
  exact ⟨(claim_C7 exReg ownerCls ownerO).1.1, h2.2.2.1, h2.2.2.2.1⟩

/-- Counterexample to C7 as stated: serializing the example owner (whose
field `child` is set) at target version 1.0 under a relationship table
whose first owner version is 1.1 produces a wire primitive with an empty
data map — the data does not contain exactly the set fields. -/
theorem claim_C7_cex :
    obj_to_primitive exReg ownerClsD ownerD (some [1,0]) =
      .ok (.mk "Owner" "nova" [1,0] .nil (some ["child"])) ∧
    (VData.find (Obj.data ownerD) "child").isSome = true ∧
    VData.keys (Obj.data ownerD) = ["child"] ∧
    PData.keys PData.nil = [] := by
  decide

end Nova
